import Mathlib

/-!
Shallow embedding of the mrustgrep search engine (src/search.rs, src/main.rs).

Text is modelled as `List Char` (`Str`); byte offsets are computed with an
explicit UTF-8 size function mirroring Rust's `char::len_utf8`, so match spans
are genuine byte offsets into the line, as in the Rust code.  The regex engine
(the `regex` crate, external to the repository) is modelled by a small AST
(`Re`) covering the dialect exercised by the specification (literal
characters, `.`, groups, `+`, `*`, and the inline `(?i)` flag that
`Searcher::new` prepends), with leftmost-first, greedy, non-overlapping
`find_iter` semantics: the search resumes at the previous match's end offset
and advances by one character after an empty match.
-/

namespace Mrustgrep

/-- Lines and patterns as lists of characters (Rust `String` / `&str`). -/
abbrev Str := List Char

instance {e a : Type} [DecidableEq e] [DecidableEq a] : DecidableEq (Except e a) :=
  fun x y =>
    match x, y with
    | .ok u, .ok v =>
      if h : u = v then isTrue (by rw [h]) else isFalse (by intro hc; cases hc; exact h rfl)
    | .error u, .error v =>
      if h : u = v then isTrue (by rw [h]) else isFalse (by intro hc; cases hc; exact h rfl)
    | .ok _, .error _ => isFalse (by intro hc; cases hc)
    | .error _, .ok _ => isFalse (by intro hc; cases hc)

/-- UTF-8 encoded size of a character, mirroring Rust `char::len_utf8`. -/
def utf8Len (c : Char) : Nat :=
  if c.toNat < 0x80 then 1
  else if c.toNat < 0x800 then 2
  else if c.toNat < 0x10000 then 3
  else 4

/-- Byte offset of the `k`-th character boundary of `l`. -/
def byteIdx : Str → Nat → Nat
  | _, 0 => 0
  | [], _ + 1 => 0
  | c :: rest, k + 1 => utf8Len c + byteIdx rest k

/-- Total byte length of a line (Rust `str::len`). -/
def byteLen (l : Str) : Nat := byteIdx l l.length

/-- Character index of the boundary at byte offset `b`, or `none` if `b` is
out of range or falls inside a character (where Rust slicing would panic). -/
def charIdxOfByte (l : Str) (b : Nat) : Option Nat :=
  if b = 0 then some 0
  else
    match l with
    | [] => none
    | c :: rest =>
      if utf8Len c ≤ b then
        (charIdxOfByte rest (b - utf8Len c)).map (fun i => i + 1)
      else none

/-- Rust `&line[s..e]`: the substring between byte offsets `s` and `e`;
`none` models the panic on a reversed range or a non-boundary offset. -/
def sliceBytes (l : Str) (s e : Nat) : Option Str :=
  if s ≤ e then
    match charIdxOfByte l s, charIdxOfByte l e with
    | some i, some j => some ((l.drop i).take (j - i))
    | _, _ => none
  else none

/-- Regex AST for the modelled dialect. -/
inductive Re where
  | epsilon : Re
  | char : Char → Re
  | dot : Re
  | seq : Re → Re → Re
  | star : Re → Re
deriving DecidableEq, Repr

/-- Single-character matching; with the case-insensitive flag set it compares
simple case foldings (Rust `(?i)` on letters). -/
def charMatches (ci : Bool) (pc c : Char) : Bool :=
  if ci then pc.toLower == c.toLower else pc == c

/-- Candidate lengths of a Kleene-star match at the head of `l`, greediest
first, given the candidate lengths `m` of the starred expression.  Each
iteration must consume at least one character, so `l.length` unfoldings
suffice; the trailing `[0]` is the empty repetition. -/
def starLens (m : Str → List Nat) : Nat → Str → List Nat
  | 0, _ => [0]
  | fuel + 1, l =>
    ((m l).filter (fun k => decide (0 < k))).flatMap
      (fun k => (starLens m fuel (l.drop k)).map (fun r => k + r)) ++ [0]

/-- Candidate match lengths of `re` at the head of `l`, in backtracking
preference order (leftmost-first semantics of the `regex` crate): the head of
this list is the length the engine reports. -/
def reLens (ci : Bool) : Re → Str → List Nat
  | .epsilon, _ => [0]
  | .char pc, l =>
    match l with
    | [] => []
    | c :: _ => if charMatches ci pc c then [1] else []
  | .dot, l =>
    match l with
    | [] => []
    | _ :: _ => [1]
  | .seq a b, l =>
    (reLens ci a l).flatMap
      (fun k => (reLens ci b (l.drop k)).map (fun r => k + r))
  | .star a, l => starLens (fun s => reLens ci a s) l.length l

/-- A compiled pattern: the AST plus the case-insensitive flag set by a
leading `(?i)`. -/
structure Regex where
  re : Re
  ci : Bool
deriving DecidableEq, Repr

/-- Characters the modelled dialect does not support; a pattern containing one
fails to compile (in the real engine they are metacharacters). -/
def unsupportedMeta (c : Char) : Bool :=
  c == '?' || c == '[' || c == ']' || c == '\x7b' || c == '\x7d' ||
    c == '|' || c == '\\' || c == '^' || c == '$'

/-- Append the pending atom, if any, to the parsed prefix. -/
def flushAcc (acc : Re) (pending : Option Re) : Re :=
  match pending with
  | none => acc
  | some a => .seq acc a

/-- Recursive-descent parse of the pattern body.  `inGroup` records whether a
`)` is expected; `pending` is the last atom (the target of a postfix `+` or
`*`); `acc` is the expression parsed so far.  Fuel decreases on every call and
every call consumes input, so `length + 1` fuel always suffices. -/
def parseLoopF : Nat → Str → Bool → Option Re → Re → Except String (Re × Str)
  | 0, _, _, _, _ => .error "pattern too deeply nested"
  | _ + 1, [], inGroup, pending, acc =>
    if inGroup then .error "unclosed group"
    else .ok (flushAcc acc pending, [])
  | fuel + 1, c :: rest, inGroup, pending, acc =>
    if c = ')' then
      if inGroup then .ok (flushAcc acc pending, rest)
      else .error "unopened group"
    else if c = '(' then
      match parseLoopF fuel rest true none .epsilon with
      | .error e => .error e
      | .ok (g, rest2) => parseLoopF fuel rest2 inGroup (some g) (flushAcc acc pending)
    else if c = '+' then
      match pending with
      | none => .error "repetition operator missing an argument"
      | some a => parseLoopF fuel rest inGroup (some (.seq a (.star a))) acc
    else if c = '*' then
      match pending with
      | none => .error "repetition operator missing an argument"
      | some a => parseLoopF fuel rest inGroup (some (.star a)) acc
    else if c = '.' then
      parseLoopF fuel rest inGroup (some .dot) (flushAcc acc pending)
    else if unsupportedMeta c then
      .error "unsupported metacharacter"
    else
      parseLoopF fuel rest inGroup (some (.char c)) (flushAcc acc pending)

/-- Parse a whole pattern body (after any `(?i)` has been stripped). -/
def parseBody (p : Str) : Except String Re :=
  match parseLoopF (p.length + 1) p false none .epsilon with
  | .error e => .error e
  | .ok (re, _) => .ok re

/-- The inline case-insensitive flag, as characters. -/
def ciFlag : Str := ['(', '?', 'i', ')']

/-- `Regex::new`: compile a pattern string, honouring a leading `(?i)`. -/
def Regex.new (p : Str) : Except String Regex :=
  if p.take 4 = ciFlag then
    (parseBody (p.drop 4)).map (fun re => { re := re, ci := true })
  else
    (parseBody p).map (fun re => { re := re, ci := false })

/-- Length reported by the engine for a match attempt at character position
`pos` of `l` (leftmost-first: the head of the preference list), or `none`. -/
def Regex.matchLenAt (r : Regex) (l : Str) (pos : Nat) : Option Nat :=
  (reLens r.ci r.re (l.drop pos)).head?

/-- Scan positions `pos, pos+1, ...` of `l`, emitting non-overlapping match
spans in character indices; after a match the scan resumes at its end, and an
empty match advances by one character (semantics of `regex`'s `find_iter`). -/
def findSpansF (r : Regex) (l : Str) : Nat → Nat → List (Nat × Nat)
  | 0, _ => []
  | fuel + 1, pos =>
    if l.length < pos then []
    else
      match r.matchLenAt l pos with
      | none => findSpansF r l fuel (pos + 1)
      | some len =>
        (pos, pos + len) ::
          findSpansF r l fuel (if len = 0 then pos + 1 else pos + len)

/-- `Regex::find_iter` collected to a list: all non-overlapping match spans of
`r` in `l`, left to right, as byte-offset pairs. -/
def Regex.find_iter (r : Regex) (l : Str) : List (Nat × Nat) :=
  (findSpansF r l (l.length + 1) 0).map (fun p => (byteIdx l p.1, byteIdx l p.2))

/-- The four output formats of `OutputFormat` in src/search.rs. -/
inductive OutputFormat where
  | CountOnly : OutputFormat
  | MatchOnly : OutputFormat
  | LineNumbered : OutputFormat
  | FullLine : OutputFormat
deriving DecidableEq, Repr

/-- The user options of `Options` in src/search.rs. -/
structure Options where
  show_line_number : Bool := false
  count_only : Bool := false
  case_ignore : Bool := false
  match_only : Bool := false
deriving DecidableEq, Repr

/-- `impl From<&Options> for OutputFormat`: resolve the flags to one mode,
first true flag winning. -/
def OutputFormat.ofOptions (opts : Options) : OutputFormat :=
  if opts.count_only then OutputFormat.CountOnly
  else if opts.match_only then OutputFormat.MatchOnly
  else if opts.show_line_number then OutputFormat.LineNumbered
  else OutputFormat.FullLine

/-- `Options::output_format`. -/
def Options.output_format (opts : Options) : OutputFormat :=
  OutputFormat.ofOptions opts

/-- `SearchResult` in src/search.rs: line number, line text and match spans. -/
structure SearchResult where
  line_number : Nat
  line : Str
  «matches» : List (Nat × Nat)
deriving DecidableEq, Repr

/-- Slice every span out of the line; `none` models a slicing panic. -/
def matchTextsAux (line : Str) : List (Nat × Nat) → Option (List Str)
  | [] => some []
  | p :: rest =>
    match sliceBytes line p.1 p.2, matchTextsAux line rest with
    | some t, some ts => some (t :: ts)
    | _, _ => none

/-- `SearchResult::match_texts`: the matched substrings, one per span. -/
def SearchResult.match_texts (r : SearchResult) : Option (List Str) :=
  matchTextsAux r.line r.matches

/-- Unicode White_Space code points, the predicate behind Rust
`char::is_whitespace`. -/
def rustIsWhitespace (c : Char) : Bool :=
  let n := c.toNat
  (decide (9 ≤ n) && decide (n ≤ 13)) || n == 32 || n == 0x85 || n == 0xA0 ||
    n == 0x1680 || (decide (0x2000 ≤ n) && decide (n ≤ 0x200A)) ||
    n == 0x2028 || n == 0x2029 || n == 0x202F || n == 0x205F || n == 0x3000

/-- Rust `str::trim_end`: drop the trailing run of whitespace characters. -/
def rustTrimEnd (l : Str) : Str :=
  (l.reverse.dropWhile rustIsWhitespace).reverse

/-- `SearchResult::format_to`: the output lines written for one result in the
given format; `none` models a slicing panic inside `match_texts`. -/
def SearchResult.format_to (r : SearchResult) (format : OutputFormat) :
    Option (List Str) :=
  match format with
  | OutputFormat.CountOnly => some []
  | OutputFormat.MatchOnly => r.match_texts
  | OutputFormat.LineNumbered =>
    some [(Nat.repr r.line_number).data ++ [':', ' '] ++ rustTrimEnd r.line]
  | OutputFormat.FullLine => some [rustTrimEnd r.line]

/-- `Searcher` in src/search.rs. -/
structure Searcher where
  regex : Regex
  opts : Options
deriving DecidableEq, Repr

/-- The pattern actually compiled by `Searcher::new`: the user pattern, with
`(?i)` prepended when `case_ignore` is set. -/
def effectivePattern (opts : Options) (p : Str) : Str :=
  if opts.case_ignore then ciFlag ++ p else p

/-- `Searcher::new`: compile the effective pattern; a compile failure is
wrapped with the context message, as by `anyhow::Context`. -/
def Searcher.new (p : Str) (opts : Options) : Except String Searcher :=
  match Regex.new (effectivePattern opts p) with
  | .error e => .error ("Failed to compile regex pattern: " ++ e)
  | .ok regex => .ok { regex := regex, opts := opts }

/-- `Searcher::search_line`: collect all spans in the line; `none` when there
is no match, otherwise the bundled result. -/
def Searcher.search_line (s : Searcher) (line_number : Nat) (line : Str) :
    Option SearchResult :=
  let ms := s.regex.find_iter line
  if ms.isEmpty then none
  else some { line_number := line_number, line := line, «matches» := ms }

/-- `Searcher::output_format`. -/
def Searcher.output_format (s : Searcher) : OutputFormat :=
  s.opts.output_format

/-- `SearchIter::new` collected to a list: the line source is
`lines().enumerate().filter_map(...)`, where a read failure becomes an error
element and a successfully read line yields a result exactly when it
matches. -/
def searchIterList (s : Searcher) (reader : List (Except String Str)) :
    List (Except String SearchResult) :=
  reader.enum.filterMap (fun p =>
    let line_number := p.1 + 1
    match p.2 with
    | .ok line => (s.search_line line_number line).map .ok
    | .error e => some (.error e))

/-- The results of a scan over an error-free source (the `Ok` elements of
`searchIterList` on a reader with no read failures). -/
def scanResults (s : Searcher) (lines : List Str) : List SearchResult :=
  lines.enum.filterMap (fun p => s.search_line (p.1 + 1) p.2)

/-- The consumption loop of `run` in src/main.rs: count each result, format it,
and stop at the first error element, wrapping it with the context message;
`none` models a formatting panic. -/
def runConsume (fmt : OutputFormat) :
    List (Except String SearchResult) → Option (Except String (Nat × List Str))
  | [] => some (.ok (0, []))
  | .error e :: _ => some (.error ("Failed to read or search line: " ++ e))
  | .ok r :: rest =>
    match r.format_to fmt with
    | none => none
    | some out =>
      match runConsume fmt rest with
      | none => none
      | some (.error e) => some (.error e)
      | some (.ok (c, outs)) => some (.ok (c + 1, out ++ outs))

/-- `run` in src/main.rs: build the searcher with the hard-wired options of
`main` and consume the scan of the given reader. -/
def run (pattern : Str) (reader : List (Except String Str)) :
    Option (Except String (Nat × List Str)) :=
  match Searcher.new pattern
      { show_line_number := true, count_only := false,
        case_ignore := false, match_only := false } with
  | .error e => some (.error e)
  | .ok s => runConsume s.output_format (searchIterList s reader)

/-! ### Lemmas: candidate match lengths are bounded by the input length -/

theorem starLens_le (m : Str → List Nat) (hm : ∀ l k, k ∈ m l → k ≤ l.length) :
    ∀ fuel l k, k ∈ starLens m fuel l → k ≤ l.length := by
  intro fuel
  induction fuel with
  | zero =>
    intro l k hk
    simp only [starLens, List.mem_singleton] at hk
    omega
  | succ n ih =>
    intro l k hk
    simp only [starLens, List.mem_append, List.mem_flatMap, List.mem_filter,
      List.mem_map, List.mem_singleton] at hk
    rcases hk with ⟨a, ⟨ha, hapos⟩, r, hr, rfl⟩ | hk
    · have h1 := hm l a ha
      have h2 := ih (l.drop a) r hr
      simp only [List.length_drop] at h2
      omega
    · omega

theorem reLens_le (ci : Bool) : ∀ re l k, k ∈ reLens ci re l → k ≤ l.length := by
  intro re
  induction re with
  | epsilon =>
    intro l k hk
    simp only [reLens, List.mem_singleton] at hk
    omega
  | char pc =>
    intro l k hk
    match l with
    | [] => simp [reLens] at hk
    | c :: rest =>
      simp only [reLens] at hk
      split at hk
      · simp only [List.mem_singleton] at hk
        simp [hk]
      · simp at hk
  | dot =>
    intro l k hk
    match l with
    | [] => simp [reLens] at hk
    | c :: rest =>
      simp only [reLens, List.mem_singleton] at hk
      simp [hk]
  | seq a b iha ihb =>
    intro l k hk
    simp only [reLens, List.mem_flatMap, List.mem_map] at hk
    obtain ⟨k1, hk1, k2, hk2, rfl⟩ := hk
    have h1 := iha l k1 hk1
    have h2 := ihb (l.drop k1) k2 hk2
    simp only [List.length_drop] at h2
    omega
  | star a iha =>
    intro l k hk
    exact starLens_le _ (fun l k h => iha l k h) _ l k hk

theorem matchLenAt_le (r : Regex) (l : Str) (pos len : Nat)
    (h : r.matchLenAt l pos = some len) : len ≤ l.length - pos := by
  have hmem : len ∈ reLens r.ci r.re (l.drop pos) :=
    List.mem_of_mem_head? (by simp [Regex.matchLenAt] at h; simp [h])
  have := reLens_le r.ci r.re (l.drop pos) len hmem
  simpa using this

/-! ### Lemmas: span invariants of the scan -/

theorem findSpansF_bounds (r : Regex) (l : Str) :
    ∀ fuel pos p, p ∈ findSpansF r l fuel pos →
      pos ≤ p.1 ∧ p.1 ≤ p.2 ∧ p.2 ≤ l.length := by
  intro fuel
  induction fuel with
  | zero => simp [findSpansF]
  | succ n ih =>
    intro pos p hp
    simp only [findSpansF] at hp
    split at hp
    · simp at hp
    · rename_i hpos
      split at hp
      · have := ih (pos + 1) p hp
        omega
      · rename_i len hlen
        have hb := matchLenAt_le r l pos len hlen
        rcases List.mem_cons.mp hp with rfl | htail
        · simp only
          omega
        · have := ih _ p htail
          split at this <;> omega

theorem findSpansF_chain (r : Regex) (l : Str) :
    ∀ fuel pos, List.Chain' (fun a b => a.2 ≤ b.1) (findSpansF r l fuel pos) := by
  intro fuel
  induction fuel with
  | zero => simp [findSpansF]
  | succ n ih =>
    intro pos
    simp only [findSpansF]
    split
    · simp
    · split
      · exact ih (pos + 1)
      · rename_i hpos len hlen
        rw [List.chain'_cons']
        refine ⟨?_, ih _⟩
        intro b hb
        have hbmem : b ∈ findSpansF r l n (if len = 0 then pos + 1 else pos + len) :=
          List.mem_of_mem_head? hb
        have := findSpansF_bounds r l n _ b hbmem
        split at this <;> omega

/-! ### Lemmas: byte offsets -/

theorem utf8Len_pos (c : Char) : 1 ≤ utf8Len c := by
  unfold utf8Len
  split
  · omega
  · split
    · omega
    · split <;> omega

theorem byteIdx_mono (l : Str) : ∀ i j, i ≤ j → byteIdx l i ≤ byteIdx l j := by
  induction l with
  | nil =>
    intro i j _
    cases i <;> cases j <;> simp [byteIdx]
  | cons c rest ih =>
    intro i j hij
    cases i with
    | zero => cases j <;> simp [byteIdx]
    | succ i =>
      cases j with
      | zero => omega
      | succ j =>
        simp only [byteIdx]
        have := ih i j (by omega)
        omega

theorem byteIdx_of_ge (l : Str) : ∀ k, l.length ≤ k → byteIdx l k = byteLen l := by
  induction l with
  | nil => intro k _; cases k <;> simp [byteIdx, byteLen]
  | cons c rest ih =>
    intro k hk
    simp only [List.length_cons] at hk
    cases k with
    | zero => omega
    | succ k =>
      simp only [byteIdx, byteLen, List.length_cons]
      rw [ih k (by omega)]
      rfl

theorem byteIdx_le_byteLen (l : Str) (k : Nat) : byteIdx l k ≤ byteLen l := by
  by_cases hk : k ≤ l.length
  · exact byteIdx_mono l k l.length hk
  · rw [byteIdx_of_ge l k (by omega)]

theorem charIdxOfByte_byteIdx (l : Str) : ∀ k, k ≤ l.length →
    charIdxOfByte l (byteIdx l k) = some k := by
  induction l with
  | nil =>
    intro k hk
    simp only [List.length_nil, Nat.le_zero] at hk
    subst hk
    simp [charIdxOfByte, byteIdx]
  | cons c rest ih =>
    intro k hk
    cases k with
    | zero => simp [charIdxOfByte, byteIdx]
    | succ k =>
      simp only [byteIdx, charIdxOfByte]
      have hpos := utf8Len_pos c
      rw [if_neg (by omega), if_pos (by omega)]
      have harg : utf8Len c + byteIdx rest k - utf8Len c = byteIdx rest k := by omega
      rw [harg, ih k (by simpa using hk)]
      rfl

theorem sliceBytes_byteIdx (l : Str) (i j : Nat) (hij : i ≤ j) (hj : j ≤ l.length) :
    sliceBytes l (byteIdx l i) (byteIdx l j) = some ((l.drop i).take (j - i)) := by
  unfold sliceBytes
  rw [if_pos (byteIdx_mono l i j hij)]
  rw [charIdxOfByte_byteIdx l i (le_trans hij hj), charIdxOfByte_byteIdx l j hj]

/-! ### Lemmas: invariants of `find_iter` spans -/

theorem find_iter_bounds (r : Regex) (l : Str) :
    ∀ p ∈ r.find_iter l, p.1 ≤ p.2 ∧ p.2 ≤ byteLen l := by
  intro p hp
  simp only [Regex.find_iter, List.mem_map] at hp
  obtain ⟨q, hq, rfl⟩ := hp
  have hb := findSpansF_bounds r l _ 0 q hq
  exact ⟨byteIdx_mono l q.1 q.2 hb.2.1, byteIdx_le_byteLen l q.2⟩

theorem find_iter_chain (r : Regex) (l : Str) :
    List.Chain' (fun a b => a.2 ≤ b.1) (r.find_iter l) := by
  simp only [Regex.find_iter]
  rw [List.chain'_map]
  apply List.Chain'.imp ?_ (findSpansF_chain r l (l.length + 1) 0)
  intro a b h
  exact byteIdx_mono l a.2 b.1 h

theorem find_iter_slice_isSome (r : Regex) (l : Str) :
    ∀ p ∈ r.find_iter l, (sliceBytes l p.1 p.2).isSome := by
  intro p hp
  simp only [Regex.find_iter, List.mem_map] at hp
  obtain ⟨q, hq, rfl⟩ := hp
  have hb := findSpansF_bounds r l _ 0 q hq
  rw [sliceBytes_byteIdx l q.1 q.2 hb.2.1 hb.2.2]
  rfl

theorem find_iter_boundary (r : Regex) (l : Str) :
    ∀ p ∈ r.find_iter l, (charIdxOfByte l p.1).isSome ∧ (charIdxOfByte l p.2).isSome := by
  intro p hp
  simp only [Regex.find_iter, List.mem_map] at hp
  obtain ⟨q, hq, rfl⟩ := hp
  have hb := findSpansF_bounds r l _ 0 q hq
  constructor
  · rw [charIdxOfByte_byteIdx l q.1 (by omega)]; rfl
  · rw [charIdxOfByte_byteIdx l q.2 hb.2.2]; rfl

theorem matchTextsAux_isSome (line : Str) :
    ∀ spans, (∀ p ∈ spans, (sliceBytes line p.1 p.2).isSome) →
      ∃ ts, matchTextsAux line spans = some ts ∧ ts.length = spans.length := by
  intro spans
  induction spans with
  | nil => intro _; exact ⟨[], rfl, rfl⟩
  | cons p rest ih =>
    intro h
    obtain ⟨t, ht⟩ := Option.isSome_iff_exists.mp (h p (by simp))
    obtain ⟨ts, hts, hlen⟩ := ih (fun q hq => h q (by simp [hq]))
    exact ⟨t :: ts, by simp [matchTextsAux, ht, hts], by simp [hlen]⟩

/-! ### Lemmas: the per-line search -/

theorem search_line_eq (s : Searcher) (n : Nat) (l : Str) :
    s.search_line n l =
      if (s.regex.find_iter l).isEmpty then none
      else some { line_number := n, line := l, «matches» := s.regex.find_iter l } := rfl

theorem search_line_some (s : Searcher) (n : Nat) (l : Str) (r : SearchResult)
    (h : s.search_line n l = some r) :
    r.line_number = n ∧ r.line = l ∧ r.matches = s.regex.find_iter l ∧
      (s.regex.find_iter l).isEmpty = false := by
  rw [search_line_eq] at h
  split at h
  · cases h
  · rename_i hne
    cases h
    simp_all

theorem search_line_match_texts (s : Searcher) (n : Nat) (l : Str) (r : SearchResult)
    (h : s.search_line n l = some r) :
    ∃ ts, r.match_texts = some ts ∧ ts.length = r.matches.length := by
  obtain ⟨_, hline, hms, _⟩ := search_line_some s n l r h
  unfold SearchResult.match_texts
  rw [hline, hms]
  exact matchTextsAux_isSome l _ (find_iter_slice_isSome s.regex l)

theorem format_to_isSome (s : Searcher) (n : Nat) (l : Str) (r : SearchResult)
    (h : s.search_line n l = some r) (fmt : OutputFormat) :
    (r.format_to fmt).isSome := by
  cases fmt with
  | MatchOnly =>
    obtain ⟨ts, hts, _⟩ := search_line_match_texts s n l r h
    simp [SearchResult.format_to, hts]
  | CountOnly => rfl
  | LineNumbered => rfl
  | FullLine => rfl

/-! ### Lemmas: the scan pipeline -/

/-- `scanResults` generalized to an arbitrary starting index of `enumerate`. -/
def scanFrom (s : Searcher) (n : Nat) (lines : List Str) : List SearchResult :=
  (lines.enumFrom n).filterMap (fun p => s.search_line (p.1 + 1) p.2)

theorem scanResults_eq_scanFrom (s : Searcher) (lines : List Str) :
    scanResults s lines = scanFrom s 0 lines := rfl

theorem scanFrom_nil (s : Searcher) (n : Nat) : scanFrom s n [] = [] := rfl

theorem scanFrom_cons (s : Searcher) (n : Nat) (l : Str) (ls : List Str) :
    scanFrom s n (l :: ls) =
      match s.search_line (n + 1) l with
      | some r => r :: scanFrom s (n + 1) ls
      | none => scanFrom s (n + 1) ls := by
  simp only [scanFrom, List.enumFrom_cons, List.filterMap_cons]
  cases s.search_line (n + 1) l <;> rfl

/-- `searchIterList` generalized to an arbitrary starting index. -/
def searchIterFrom (s : Searcher) (n : Nat) (reader : List (Except String Str)) :
    List (Except String SearchResult) :=
  (reader.enumFrom n).filterMap (fun p =>
    match p.2 with
    | .ok line => (s.search_line (p.1 + 1) line).map .ok
    | .error e => some (.error e))

theorem searchIterList_eq_searchIterFrom (s : Searcher) (reader : List (Except String Str)) :
    searchIterList s reader = searchIterFrom s 0 reader := rfl

theorem searchIterFrom_ok (s : Searcher) :
    ∀ lines n, searchIterFrom s n (lines.map .ok) = (scanFrom s n lines).map .ok := by
  intro lines
  induction lines with
  | nil => intro n; rfl
  | cons l ls ih =>
    intro n
    rw [scanFrom_cons]
    simp only [List.map_cons, searchIterFrom, List.enumFrom_cons, List.filterMap_cons]
    cases h : s.search_line (n + 1) l <;>
      simp only [Option.map_none, Option.map_some] <;>
      rw [show ((ls.map Except.ok).enumFrom (n + 1)).filterMap _ = searchIterFrom s (n + 1) (ls.map .ok) from rfl, ih (n + 1)] <;>
      simp

theorem scanFrom_length (s : Searcher) :
    ∀ lines n, (scanFrom s n lines).length =
      (lines.filter (fun l => !(s.regex.find_iter l).isEmpty)).length := by
  intro lines
  induction lines with
  | nil => intro n; rfl
  | cons l ls ih =>
    intro n
    rw [scanFrom_cons, List.filter_cons]
    rw [search_line_eq]
    by_cases h : (s.regex.find_iter l).isEmpty
    · simp [h, ih (n + 1)]
    · simp only [h] at *
      simp [ih (n + 1), h]

theorem scanFrom_mem (s : Searcher) :
    ∀ lines n r, r ∈ scanFrom s n lines →
      ∃ k, lines.get? k = some r.line ∧ r.line_number = n + k + 1 ∧
        r.matches = s.regex.find_iter r.line ∧
        (s.regex.find_iter r.line).isEmpty = false := by
  intro lines
  induction lines with
  | nil => intro n r hr; cases hr
  | cons l ls ih =>
    intro n r hr
    rw [scanFrom_cons] at hr
    have hstep : r ∈ scanFrom s (n + 1) ls ∨ s.search_line (n + 1) l = some r := by
      cases h : s.search_line (n + 1) l with
      | none => rw [h] at hr; exact Or.inl hr
      | some r0 =>
        rw [h] at hr
        rcases List.mem_cons.mp hr with rfl | htail
        · exact Or.inr rfl
        · exact Or.inl htail
    rcases hstep with htail | hhead
    · obtain ⟨k, hk1, hk2, hk3, hk4⟩ := ih (n + 1) r htail
      exact ⟨k + 1, by simpa using hk1, by omega, hk3, hk4⟩
    · obtain ⟨h1, h2, h3, h4⟩ := search_line_some s (n + 1) l r hhead
      exact ⟨0, by simp [h2], by omega, by rw [h2]; exact h3, by rw [h2]; exact h4⟩

theorem scanFrom_cons_pos (s : Searcher) (n : Nat) (l : Str) (ls : List Str)
    (h : (s.regex.find_iter l).isEmpty = false) :
    scanFrom s n (l :: ls) =
      { line_number := n + 1, line := l, «matches» := s.regex.find_iter l } ::
        scanFrom s (n + 1) ls := by
  rw [scanFrom_cons]
  simp [search_line_eq, h]

theorem scanFrom_cons_neg (s : Searcher) (n : Nat) (l : Str) (ls : List Str)
    (h : (s.regex.find_iter l).isEmpty = true) :
    scanFrom s n (l :: ls) = scanFrom s (n + 1) ls := by
  rw [scanFrom_cons]
  simp [search_line_eq, h]

theorem scanFrom_count (s : Searcher) :
    ∀ lines n k line, lines.get? k = some line →
      ((scanFrom s n lines).filter (fun r => r.line_number == n + k + 1)).length =
        if (s.regex.find_iter line).isEmpty then 0 else 1 := by
  intro lines
  induction lines with
  | nil => intro n k line h; cases h
  | cons l ls ih =>
    intro n k line h
    have htail_nil : ∀ m, m ≤ n + 1 →
        (scanFrom s (n + 1) ls).filter (fun r => r.line_number == m) = [] := by
      intro m hm
      rw [List.filter_eq_nil_iff]
      intro r hr
      obtain ⟨k2, _, hln, _, _⟩ := scanFrom_mem s ls (n + 1) r hr
      simp only [beq_iff_eq]
      omega
    cases k with
    | zero =>
      have hil : l = line := by
        simp only [List.get?] at h
        injection h
      subst hil
      cases hm : (s.regex.find_iter l).isEmpty with
      | true =>
        rw [scanFrom_cons_neg s n l ls hm, if_pos rfl]
        rw [htail_nil (n + 0 + 1) (by omega)]
        rfl
      | false =>
        rw [scanFrom_cons_pos s n l ls hm, if_neg (by simp)]
        rw [List.filter_cons]
        rw [if_pos (by simp)]
        rw [htail_nil (n + 0 + 1) (by omega)]
        rfl
    | succ k =>
      simp only [List.get?] at h
      have hrec := ih (n + 1) k line h
      have harith : n + 1 + k + 1 = n + (k + 1) + 1 := by omega
      rw [harith] at hrec
      cases hm : (s.regex.find_iter l).isEmpty with
      | true =>
        rw [scanFrom_cons_neg s n l ls hm]
        exact hrec
      | false =>
        rw [scanFrom_cons_pos s n l ls hm]
        rw [List.filter_cons]
        rw [if_neg (by simp only [beq_iff_eq]; omega)]
        exact hrec

/-! ### Lemmas: read failures in the scan -/

theorem searchIterFrom_error (s : Searcher) :
    ∀ (lines : List Str) n e (post : List (Except String Str)),
      searchIterFrom s n (lines.map .ok ++ .error e :: post) =
        (scanFrom s n lines).map .ok ++
          .error e :: searchIterFrom s (n + lines.length + 1) post := by
  intro lines
  induction lines with
  | nil =>
    intro n e post
    simp only [List.map_nil, List.nil_append, searchIterFrom, List.enumFrom_cons,
      List.filterMap_cons, scanFrom_nil]
    rfl
  | cons l ls ih =>
    intro n e post
    rw [scanFrom_cons]
    simp only [List.map_cons, List.cons_append, searchIterFrom, List.enumFrom_cons,
      List.filterMap_cons]
    have hrest :
        ((ls.map Except.ok ++ Except.error e :: post).enumFrom (n + 1)).filterMap
          (fun (p : Nat × Except String Str) =>
            (match p.2 with
              | .ok line => (s.search_line (p.1 + 1) line).map Except.ok
              | .error e2 => some (.error e2) :
              Option (Except String SearchResult))) =
        searchIterFrom s (n + 1) (ls.map .ok ++ Except.error e :: post) := rfl
    rw [hrest, ih (n + 1) e post]
    have harith : n + 1 + ls.length + 1 = n + (ls.length + 1) + 1 := by omega
    rw [harith]
    cases hsl : s.search_line (n + 1) l <;> simp <;> rfl

theorem runConsume_ok_append_error (fmt : OutputFormat) (e : String) :
    ∀ (rs : List SearchResult) (tail : List (Except String SearchResult)),
      (∀ r ∈ rs, (r.format_to fmt).isSome) →
      runConsume fmt (rs.map .ok ++ .error e :: tail) =
        some (.error ("Failed to read or search line: " ++ e)) := by
  intro rs
  induction rs with
  | nil => intro tail _; rfl
  | cons r rest ih =>
    intro tail h
    obtain ⟨out, hout⟩ := Option.isSome_iff_exists.mp (h r (by simp))
    simp only [List.map_cons, List.cons_append, runConsume, hout]
    rw [show (List.map Except.ok rest).append (Except.error e :: tail) =
      List.map Except.ok rest ++ Except.error e :: tail from rfl]
    rw [ih tail (fun q hq => h q (by simp [hq]))]

theorem runConsume_all_ok (fmt : OutputFormat) :
    ∀ rs : List SearchResult, (∀ r ∈ rs, (r.format_to fmt).isSome) →
      ∃ outs, runConsume fmt (rs.map .ok) = some (.ok (rs.length, outs)) := by
  intro rs
  induction rs with
  | nil => intro _; exact ⟨[], rfl⟩
  | cons r rest ih =>
    intro h
    obtain ⟨out, hout⟩ := Option.isSome_iff_exists.mp (h r (by simp))
    obtain ⟨outs, houts⟩ := ih (fun q hq => h q (by simp [hq]))
    refine ⟨out ++ outs, ?_⟩
    simp [runConsume, hout, houts]

theorem runConsume_countOnly (rs : List SearchResult) :
    runConsume .CountOnly (rs.map .ok) = some (.ok (rs.length, [])) := by
  induction rs with
  | nil => rfl
  | cons r rest ih => simp [runConsume, SearchResult.format_to, ih]

/-! ### Lemmas: completeness of the scan (no matching position is skipped) -/

theorem findSpansF_nil_iff (r : Regex) (l : Str) :
    ∀ fuel pos, l.length + 1 - pos ≤ fuel →
      (findSpansF r l fuel pos = [] ↔
        ∀ q, pos ≤ q → q ≤ l.length → r.matchLenAt l q = none) := by
  intro fuel
  induction fuel with
  | zero =>
    intro pos hf
    constructor
    · intro _ q hq1 hq2
      omega
    · intro _
      rfl
  | succ n ih =>
    intro pos hf
    simp only [findSpansF]
    split
    · rename_i hlt
      constructor
      · intro _ q hq1 hq2
        omega
      · intro _
        rfl
    · rename_i hge
      cases hml : r.matchLenAt l pos with
      | none =>
        rw [ih (pos + 1) (by omega)]
        constructor
        · intro h q hq1 hq2
          rcases Nat.eq_or_lt_of_le hq1 with heq | hlt2
          · rw [← heq]
            exact hml
          · exact h q (by omega) hq2
        · intro h q hq1 hq2
          exact h q (by omega) hq2
      | some len =>
        constructor
        · intro h
          cases h
        · intro h
          exfalso
          have := h pos (Nat.le_refl pos) (by omega)
          rw [hml] at this
          cases this

theorem find_iter_eq_nil_iff (r : Regex) (l : Str) :
    r.find_iter l = [] ↔ ∀ q, q ≤ l.length → r.matchLenAt l q = none := by
  simp only [Regex.find_iter, List.map_eq_nil_iff]
  rw [findSpansF_nil_iff r l (l.length + 1) 0 (by omega)]
  constructor
  · intro h q hq
    exact h q (Nat.zero_le q) hq
  · intro h q _ hq
    exact h q hq

/-! ### Lemmas: trimming -/

theorem rustTrimEnd_split (l : Str) :
    ∃ w, l = rustTrimEnd l ++ w ∧ ∀ c ∈ w, rustIsWhitespace c = true := by
  refine ⟨(l.reverse.takeWhile rustIsWhitespace).reverse, ?_, ?_⟩
  · conv_lhs => rw [← List.reverse_reverse l,
      ← List.takeWhile_append_dropWhile (p := rustIsWhitespace) (l := l.reverse)]
    rw [List.reverse_append]
    rfl
  · intro c hc
    rw [List.mem_reverse] at hc
    exact List.mem_takeWhile_imp hc

/-! ### Lemmas: simple case folding -/

theorem char_toNat_ofNat {m : Nat} (h : m.isValidChar) : (Char.ofNat m).toNat = m := by
  rw [Char.ofNat, dif_pos h]
  rfl

theorem toLower_eq_of_upper {c : Char} (h : 65 ≤ c.toNat ∧ c.toNat ≤ 90) :
    c.toLower = Char.ofNat (c.toNat + 32) := by
  simp only [Char.toLower]
  rw [if_pos h]

theorem toLower_eq_self {c : Char} (h : ¬(65 ≤ c.toNat ∧ c.toNat ≤ 90)) :
    c.toLower = c := by
  simp only [Char.toLower]
  rw [if_neg h]

theorem toNat_toLower (c : Char) :
    c.toLower.toNat =
      if 65 ≤ c.toNat ∧ c.toNat ≤ 90 then c.toNat + 32 else c.toNat := by
  by_cases h : 65 ≤ c.toNat ∧ c.toNat ≤ 90
  · rw [toLower_eq_of_upper h, if_pos h, char_toNat_ofNat (Or.inl (by omega))]
  · rw [toLower_eq_self h, if_neg h]

theorem toLower_idem (c : Char) : c.toLower.toLower = c.toLower := by
  have hn := toNat_toLower c
  by_cases h : 65 ≤ c.toNat ∧ c.toNat ≤ 90
  · rw [if_pos h] at hn
    apply toLower_eq_self
    omega
  · rw [if_neg h] at hn
    apply toLower_eq_self
    omega

theorem utf8Len_toLower (c : Char) : utf8Len c.toLower = utf8Len c := by
  have hn := toNat_toLower c
  unfold utf8Len
  by_cases h : 65 ≤ c.toNat ∧ c.toNat ≤ 90
  · rw [if_pos h] at hn
    rw [hn]
    rw [if_pos (by omega), if_pos (by omega)]
  · rw [if_neg h] at hn
    rw [hn]

theorem charMatches_toLower (pc c : Char) :
    charMatches true pc c.toLower = charMatches true pc c := by
  simp only [charMatches, if_pos]
  rw [toLower_idem]

theorem byteIdx_map_toLower (l : Str) : ∀ k,
    byteIdx (l.map Char.toLower) k = byteIdx l k := by
  induction l with
  | nil => intro k; rfl
  | cons c rest ih =>
    intro k
    cases k with
    | zero => rfl
    | succ k =>
      simp only [List.map_cons, byteIdx, utf8Len_toLower, ih k]

theorem starLens_map_toLower (m : Str → List Nat)
    (hm : ∀ l, m (l.map Char.toLower) = m l) :
    ∀ fuel l, starLens m fuel (l.map Char.toLower) = starLens m fuel l := by
  intro fuel
  induction fuel with
  | zero => intro l; rfl
  | succ n ih =>
    intro l
    simp only [starLens, hm]
    congr 1
    congr 1
    funext k
    rw [← List.map_drop, ih]

theorem reLens_map_toLower (re : Re) : ∀ l : Str,
    reLens true re (l.map Char.toLower) = reLens true re l := by
  induction re with
  | epsilon => intro l; rfl
  | char pc =>
    intro l
    cases l with
    | nil => rfl
    | cons c rest =>
      simp only [List.map_cons, reLens, charMatches_toLower]
  | dot =>
    intro l
    cases l <;> rfl
  | seq a b iha ihb =>
    intro l
    simp only [reLens, iha]
    congr 1
    funext k
    rw [← List.map_drop, ihb]
  | star a iha =>
    intro l
    simp only [reLens, List.length_map]
    exact starLens_map_toLower _ (fun l2 => iha l2) l.length l

theorem matchLenAt_map_toLower (r : Regex) (hci : r.ci = true) (l : Str) (pos : Nat) :
    r.matchLenAt (l.map Char.toLower) pos = r.matchLenAt l pos := by
  simp only [Regex.matchLenAt, hci]
  rw [← List.map_drop, reLens_map_toLower]

theorem findSpansF_map_toLower (r : Regex) (hci : r.ci = true) (l : Str) :
    ∀ fuel pos, findSpansF r (l.map Char.toLower) fuel pos = findSpansF r l fuel pos := by
  intro fuel
  induction fuel with
  | zero => intro pos; rfl
  | succ n ih =>
    intro pos
    simp only [findSpansF, List.length_map, matchLenAt_map_toLower r hci, ih]

theorem find_iter_map_toLower (r : Regex) (hci : r.ci = true) (l : Str) :
    r.find_iter (l.map Char.toLower) = r.find_iter l := by
  simp only [Regex.find_iter, List.length_map, findSpansF_map_toLower r hci]
  congr 1
  funext p
  rw [byteIdx_map_toLower, byteIdx_map_toLower]


/-! ### Remaining helper lemmas -/

theorem scanFrom_mem_search_line (s : Searcher) (lines : List Str) (n : Nat)
    (r : SearchResult) (hr : r ∈ scanFrom s n lines) :
    s.search_line r.line_number r.line = some r := by
  obtain ⟨k, _, hln, hms, hne⟩ := scanFrom_mem s lines n r hr
  rw [search_line_eq]
  rw [if_neg (by simp [hne])]
  rw [← hms]

theorem matchTextsAux_get (line : Str) :
    ∀ spans ts, matchTextsAux line spans = some ts →
      ∀ i span, spans.get? i = some span →
        ∃ t, ts.get? i = some t ∧ sliceBytes line span.1 span.2 = some t := by
  intro spans
  induction spans with
  | nil =>
    intro ts h i span hsp
    cases hsp
  | cons p rest ih =>
    intro ts h i span hsp
    simp only [matchTextsAux] at h
    cases hslice : sliceBytes line p.1 p.2 with
    | none => rw [hslice] at h; cases h
    | some t0 =>
      rw [hslice] at h
      cases hrest : matchTextsAux line rest with
      | none => rw [hrest] at h; cases h
      | some ts0 =>
        rw [hrest] at h
        injection h with h
        subst h
        cases i with
        | zero =>
          simp only [List.get?] at hsp
          injection hsp with hsp
          subst hsp
          exact ⟨t0, rfl, hslice⟩
        | succ i =>
          simp only [List.get?] at hsp
          exact ih ts0 hrest i span hsp

/-! ### Claims -/

/-- Claim C1: for every compiled pattern and finite error-free line source the
scan yields exactly one `SearchResult` per line with at least one occurrence
and nothing for a line with zero occurrences, in every output mode: the scan
iterator is the `Ok`-image of `scanResults`; the number of results equals the
number of matching lines; the `k`-th read line contributes exactly one result
when it matches and none otherwise; `find_iter` is empty exactly when no
position of the line matches; and the scan does not depend on the output-mode
options. -/
theorem claim_C1 :
    (∀ (s : Searcher) (lines : List Str),
      searchIterList s (lines.map .ok) = (scanResults s lines).map .ok) ∧
    (∀ (s : Searcher) (lines : List Str),
      (scanResults s lines).length =
        (lines.filter (fun l => !(s.regex.find_iter l).isEmpty)).length) ∧
    (∀ (s : Searcher) (lines : List Str) (k : Nat) (line : Str),
      lines.get? k = some line →
      ((scanResults s lines).filter (fun r => r.line_number == k + 1)).length =
        if (s.regex.find_iter line).isEmpty then 0 else 1) ∧
    (∀ (r : Regex) (l : Str),
      r.find_iter l = [] ↔ ∀ q, q ≤ l.length → r.matchLenAt l q = none) ∧
    (∀ (re : Regex) (o o2 : Options) (lines : List Str),
      scanResults { regex := re, opts := o } lines =
        scanResults { regex := re, opts := o2 } lines) := by
  refine ⟨?_, ?_, ?_, ?_, ?_⟩
  · intro s lines
    rw [searchIterList_eq_searchIterFrom, searchIterFrom_ok, scanResults_eq_scanFrom]
  · intro s lines
    rw [scanResults_eq_scanFrom]
    exact scanFrom_length s lines 0
  · intro s lines k line h
    rw [scanResults_eq_scanFrom]
    have := scanFrom_count s lines 0 k line h
    simpa using this
  · intro r l
    exact find_iter_eq_nil_iff r l
  · intro re o o2 lines
    rfl

/-- Witness for claim C1 at a concrete input: pattern `x`, lines `a` and `xb`;
the second line carries exactly one result. -/
theorem claim_C1_witness :
    ((scanResults { regex := { re := Re.char 'x', ci := false }, opts := {} }
        ["a".data, "xb".data]).filter (fun r => r.line_number == 1 + 1)).length =
      if (({ re := Re.char 'x', ci := false } : Regex).find_iter "xb".data).isEmpty
        then 0 else 1 :=
  claim_C1.2.2.1 { regex := { re := Re.char 'x', ci := false }, opts := {} }
    ["a".data, "xb".data] 1 "xb".data (by decide)

/-- Claim C2: line numbers are 1-based and the result of the `k`-th read line
(counting from 1) carries line number `k`; scanning `a`, `xb`, `c`, `xd` with
pattern `x` yields results numbered 2 and 4. -/
theorem claim_C2 :
    (∀ (s : Searcher) (lines : List Str) (r : SearchResult),
      r ∈ scanResults s lines →
        ∃ k, lines.get? k = some r.line ∧ r.line_number = k + 1) ∧
    (Searcher.new ['x'] {}).map
        (fun s => (scanResults s ["a".data, "xb".data, "c".data, "xd".data]).map
          (fun r => r.line_number)) = .ok [2, 4] := by
  constructor
  · intro s lines r hr
    rw [scanResults_eq_scanFrom] at hr
    obtain ⟨k, h1, h2, _, _⟩ := scanFrom_mem s lines 0 r hr
    exact ⟨k, h1, by omega⟩
  · decide

/-- Witness for claim C2 at a concrete input: the result for line `xb` of the
source `a`, `xb` carries line number 2 = 1 + 1. -/
theorem claim_C2_witness :
    ∃ k, ["a".data, "xb".data].get? k =
        some ({ line_number := 2, line := "xb".data, «matches» := [(0, 1)] }
          : SearchResult).line ∧
      ({ line_number := 2, line := "xb".data, «matches» := [(0, 1)] }
          : SearchResult).line_number = k + 1 :=
  claim_C2.1 { regex := { re := Re.char 'x', ci := false }, opts := {} }
    ["a".data, "xb".data]
    { line_number := 2, line := "xb".data, «matches» := [(0, 1)] } (by decide)

/-- Claim C3: every span list consists of half-open byte-offset pairs with
`start ≤ end ≤ byteLen line`, pairwise non-overlapping and ordered left to
right (each end bounds the next start, the search resuming at the previous
end); pattern `aa` on `aaaa` yields `[(0,2),(2,4)]`. -/
theorem claim_C3 :
    (∀ (r : Regex) (l : Str) (p : Nat × Nat), p ∈ r.find_iter l →
      p.1 ≤ p.2 ∧ p.2 ≤ byteLen l) ∧
    (∀ (r : Regex) (l : Str),
      List.Chain' (fun a b => a.2 ≤ b.1) (r.find_iter l)) ∧
    (Regex.new ['a', 'a']).map (fun r => r.find_iter ['a', 'a', 'a', 'a']) =
      .ok [(0, 2), (2, 4)] := by
  refine ⟨?_, ?_, by decide⟩
  · intro r l p hp
    exact find_iter_bounds r l p hp
  · intro r l
    exact find_iter_chain r l

/-- Witness for claim C3 at a concrete input: the first span of pattern `aa`
on `aaaa` is within bounds. -/
theorem claim_C3_witness :
    (((0, 2) : Nat × Nat)).1 ≤ (((0, 2) : Nat × Nat)).2 ∧
      (((0, 2) : Nat × Nat)).2 ≤ byteLen ['a', 'a', 'a', 'a'] :=
  claim_C3.1
    { re := Re.seq (Re.seq Re.epsilon (Re.char 'a')) (Re.char 'a'), ci := false }
    ['a', 'a', 'a', 'a'] (0, 2) (by decide)

/-- Claim C4: a read failure mid-stream surfaces as exactly one error element,
positioned right after the results of the lines before it, and the consuming
loop halts there with the wrapped error, so no result for any later line is
yielded, whatever the output format. -/
theorem claim_C4 :
    ∀ (s : Searcher) (fmt : OutputFormat) (pre : List Str) (e : String)
      (post : List (Except String Str)),
      (∃ tail, searchIterList s (pre.map .ok ++ .error e :: post) =
        (scanResults s pre).map .ok ++ .error e :: tail) ∧
      runConsume fmt (searchIterList s (pre.map .ok ++ .error e :: post)) =
        some (.error ("Failed to read or search line: " ++ e)) := by
  intro s fmt pre e post
  have hdec : searchIterList s (pre.map .ok ++ .error e :: post) =
      (scanResults s pre).map .ok ++
        .error e :: searchIterFrom s (pre.length + 1) post := by
    rw [searchIterList_eq_searchIterFrom, searchIterFrom_error,
      scanResults_eq_scanFrom]
    norm_num
  constructor
  · exact ⟨_, hdec⟩
  · rw [hdec]
    apply runConsume_ok_append_error
    intro r hr
    rw [scanResults_eq_scanFrom] at hr
    exact format_to_isSome s r.line_number r.line r
      (scanFrom_mem_search_line s pre 0 r hr) fmt

/-- A character Rust counts as a line terminator. -/
def isLineTerminator (c : Char) : Bool := c == '\n' || c == '\r'

/-- Modelled from the spec's wording, for comparison with the code: trimming
that removes only trailing line-terminator characters. -/
def trimLineTerminatorsSpec (l : Str) : Str :=
  (l.reverse.dropWhile isLineTerminator).reverse

/-- Counterexample to claim C5: formatting the line `ab` followed by a space
in FullLine mode emits `ab`, dropping the trailing space, which is not a
line-terminator character; spec-style trimming would have kept it. -/
theorem claim_C5_cex :
    SearchResult.format_to
        { line_number := 1, line := ['a', 'b', ' '], «matches» := [(0, 1)] }
        .FullLine = some [['a', 'b']] ∧
      trimLineTerminatorsSpec ['a', 'b', ' '] = ['a', 'b', ' '] ∧
      some [['a', 'b']] ≠ some [trimLineTerminatorsSpec ['a', 'b', ' ']] := by
  decide

/-- Claim C5 as amended: formatting in LineNumbered or FullLine mode trims the
line by removing only a trailing run of whitespace characters (Rust
`str::trim_end`, whose whitespace includes the line terminators but also
spaces and tabs), never interior or leading characters — the trimmed text is a
contiguous leading part of the line and only whitespace is dropped — and the
stored spans are computed against the untrimmed line and are unaffected by
formatting. -/
theorem claim_C5 :
    (∀ r : SearchResult,
      r.format_to .FullLine = some [rustTrimEnd r.line] ∧
      r.format_to .LineNumbered =
        some [(Nat.repr r.line_number).data ++ [':', ' '] ++ rustTrimEnd r.line]) ∧
    (∀ l : Str, ∃ w, l = rustTrimEnd l ++ w ∧ ∀ c ∈ w, rustIsWhitespace c = true) ∧
    (∀ (s : Searcher) (n : Nat) (l : Str) (r : SearchResult),
      s.search_line n l = some r →
        r.line = l ∧ r.matches = s.regex.find_iter l) := by
  refine ⟨fun r => ⟨rfl, rfl⟩, rustTrimEnd_split, ?_⟩
  intro s n l r h
  obtain ⟨_, h2, h3, _⟩ := search_line_some s n l r h
  exact ⟨h2, h3⟩

/-- Witness for claim C5 at a concrete input: the result stored for the line
`ab` plus trailing space keeps the untrimmed line and its spans. -/
theorem claim_C5_witness :
    ({ line_number := 1, line := ['a', 'b', ' '], «matches» := [(0, 1)] }
        : SearchResult).line = ['a', 'b', ' '] ∧
      ({ line_number := 1, line := ['a', 'b', ' '], «matches» := [(0, 1)] }
        : SearchResult).matches =
        ({ regex := { re := Re.char 'a', ci := false }, opts := {} }
          : Searcher).regex.find_iter ['a', 'b', ' '] :=
  claim_C5.2.2 { regex := { re := Re.char 'a', ci := false }, opts := {} } 1
    ['a', 'b', ' ']
    { line_number := 1, line := ['a', 'b', ' '], «matches» := [(0, 1)] } (by decide)

/-- Claim C6: output-mode resolution is a total function of the four flags
with fixed priority, first true flag winning; with both `count_only` and
`match_only` set it resolves to CountOnly. -/
theorem claim_C6 :
    (∀ opts : Options, opts.count_only = true →
      OutputFormat.ofOptions opts = .CountOnly) ∧
    (∀ opts : Options, opts.count_only = false → opts.match_only = true →
      OutputFormat.ofOptions opts = .MatchOnly) ∧
    (∀ opts : Options, opts.count_only = false → opts.match_only = false →
      opts.show_line_number = true → OutputFormat.ofOptions opts = .LineNumbered) ∧
    (∀ opts : Options, opts.count_only = false → opts.match_only = false →
      opts.show_line_number = false → OutputFormat.ofOptions opts = .FullLine) ∧
    (∀ opts : Options, opts.output_format = OutputFormat.ofOptions opts) ∧
    OutputFormat.ofOptions
        { show_line_number := false, count_only := true,
          case_ignore := false, match_only := true } = .CountOnly := by
  refine ⟨?_, ?_, ?_, ?_, fun _ => rfl, rfl⟩ <;>
    (intro opts; intros; simp [OutputFormat.ofOptions, *])

/-- Witness for claim C6 at a concrete input. -/
theorem claim_C6_witness :
    OutputFormat.ofOptions { count_only := true } = .CountOnly :=
  claim_C6.1 { count_only := true } rfl

/-- Claim C7: with `case_ignore` set, construction compiles the user pattern
wrapped whole in the inline case-insensitive flag, making matching
letter-case-insensitive over the entire expression (spans are invariant under
lowercasing the line); the engine built from `ABC` with case-ignore matches
`xx abc yy`. -/
theorem claim_C7 :
    (∀ (p : Str) (opts : Options), opts.case_ignore = true →
      effectivePattern opts p = ciFlag ++ p) ∧
    (∀ (p : Str) (re : Re),
      Regex.new p = .ok { re := re, ci := false } →
      Regex.new (ciFlag ++ p) = .ok { re := re, ci := true }) ∧
    (∀ r : Regex, r.ci = true → ∀ l : Str,
      r.find_iter (l.map Char.toLower) = r.find_iter l) ∧
    (Searcher.new ['A', 'B', 'C']
        { show_line_number := false, count_only := false,
          case_ignore := true, match_only := false }).map
      (fun s => (s.search_line 1 "xx abc yy".data).map (fun r => r.matches)) =
      .ok (some [(3, 6)]) := by
  refine ⟨?_, ?_, ?_, by decide⟩
  · intro p opts h
    simp [effectivePattern, h]
  · intro p re h
    have htake : (ciFlag ++ p).take 4 = ciFlag := List.take_left' rfl
    have hdrop : (ciFlag ++ p).drop 4 = p := List.drop_left' rfl
    rw [Regex.new, if_pos htake, hdrop]
    rw [Regex.new] at h
    by_cases hp : p.take 4 = ciFlag
    · rw [if_pos hp] at h
      cases hb : parseBody (p.drop 4) with
      | error e => rw [hb] at h; cases h
      | ok re2 =>
        rw [hb] at h
        simp [Except.map] at h
    · rw [if_neg hp] at h
      cases hb : parseBody p with
      | error e => rw [hb] at h; cases h
      | ok re2 =>
        rw [hb] at h
        simp only [Except.map, Except.ok.injEq, Regex.mk.injEq] at h
        simp [Except.map, h.1]
  · intro r h l
    exact find_iter_map_toLower r h l

/-- Witness for claim C7 at a concrete input: a case-insensitive literal `a`
finds the same spans in `A` and in its lowercased form. -/
theorem claim_C7_witness :
    ({ re := Re.char 'a', ci := true } : Regex).find_iter
        ("A".data.map Char.toLower) =
      ({ re := Re.char 'a', ci := true } : Regex).find_iter "A".data :=
  claim_C7.2.2.1 { re := Re.char 'a', ci := true } rfl "A".data

/-- Claim C8: construction fails exactly when the effective pattern is not in
the engine's dialect, with an error wrapping the underlying syntax error, and
succeeds (holding the compiled pattern and the options, no line source being
involved) otherwise; an unbalanced parenthesis fails and `abc` compiles. -/
theorem claim_C8 :
    (∀ (p : Str) (opts : Options) (e : String),
      Searcher.new p opts = .error e ↔
        ∃ e2, Regex.new (effectivePattern opts p) = .error e2 ∧
          e = "Failed to compile regex pattern: " ++ e2) ∧
    (∀ (p : Str) (opts : Options) (s : Searcher),
      Searcher.new p opts = .ok s →
        Regex.new (effectivePattern opts p) = .ok s.regex ∧ s.opts = opts) ∧
    Searcher.new ['('] {} =
      .error "Failed to compile regex pattern: unclosed group" ∧
    (Searcher.new ['a', 'b', 'c'] {}).map (fun _ => ()) = .ok () := by
  refine ⟨?_, ?_, by decide, by decide⟩
  · intro p opts e
    cases h : Regex.new (effectivePattern opts p) with
    | error e2 =>
      simp only [Searcher.new, h]
      constructor
      · intro h2
        injection h2 with h2
        exact ⟨e2, rfl, h2.symm⟩
      · rintro ⟨e3, he3, rfl⟩
        injection he3 with he3
        rw [he3]
    | ok re =>
      simp only [Searcher.new, h]
      constructor
      · intro h2
        cases h2
      · rintro ⟨e3, he3, _⟩
        cases he3
  · intro p opts s
    cases h : Regex.new (effectivePattern opts p) with
    | error e2 =>
      simp only [Searcher.new, h]
      intro h2
      cases h2
    | ok re =>
      simp only [Searcher.new, h]
      intro h2
      injection h2 with h2
      subst h2
      exact ⟨rfl, rfl⟩

/-- Witness for claim C8 at a concrete input: the pattern `a` compiles and the
searcher holds its compiled form and options. -/
theorem claim_C8_witness :
    Regex.new (effectivePattern {} ['a']) =
        .ok ({ regex := { re := Re.seq Re.epsilon (Re.char 'a'), ci := false }, opts := {} } : Searcher).regex ∧
      ({ regex := { re := Re.seq Re.epsilon (Re.char 'a'), ci := false }, opts := {} } : Searcher).opts = ({} : Options) :=
  claim_C8.2.1 ['a'] {}
    { regex := { re := Re.seq Re.epsilon (Re.char 'a'), ci := false }, opts := {} }
    (by decide)

/-- Claim C9: MatchOnly formatting of an engine-produced result emits exactly
one output line per span, in span order, each being the substring of the line
at that span's byte offsets; CountOnly formatting emits nothing while the
consuming loop still counts every result. -/
theorem claim_C9 :
    (∀ (s : Searcher) (lines : List Str) (r : SearchResult),
      r ∈ scanResults s lines →
        ∃ ts, r.match_texts = some ts ∧ r.format_to .MatchOnly = some ts ∧
          ts.length = r.matches.length ∧
          ∀ i span, r.matches.get? i = some span →
            ∃ t, ts.get? i = some t ∧ sliceBytes r.line span.1 span.2 = some t) ∧
    (∀ r : SearchResult, r.format_to .CountOnly = some []) ∧
    (∀ rs : List SearchResult,
      runConsume .CountOnly (rs.map .ok) = some (.ok (rs.length, []))) := by
  refine ⟨?_, fun _ => rfl, runConsume_countOnly⟩
  intro s lines r hr
  rw [scanResults_eq_scanFrom] at hr
  have hsl := scanFrom_mem_search_line s lines 0 r hr
  obtain ⟨ts, hts, hlen⟩ := search_line_match_texts s r.line_number r.line r hsl
  refine ⟨ts, hts, hts, hlen, ?_⟩
  intro i span hspan
  exact matchTextsAux_get r.line r.matches ts hts i span hspan

/-- Witness for claim C9 at a concrete input: the single-span result for line
`ab` with pattern `a`. -/
theorem claim_C9_witness :
    ∃ ts, ({ line_number := 1, line := ['a', 'b'], «matches» := [(0, 1)] }
          : SearchResult).match_texts = some ts ∧
      ({ line_number := 1, line := ['a', 'b'], «matches» := [(0, 1)] }
          : SearchResult).format_to .MatchOnly = some ts ∧
      ts.length = ({ line_number := 1, line := ['a', 'b'], «matches» := [(0, 1)] }
          : SearchResult).matches.length ∧
      ∀ i span, ({ line_number := 1, line := ['a', 'b'], «matches» := [(0, 1)] }
          : SearchResult).matches.get? i = some span →
        ∃ t, ts.get? i = some t ∧
          sliceBytes ({ line_number := 1, line := ['a', 'b'], «matches» := [(0, 1)] }
            : SearchResult).line span.1 span.2 = some t :=
  claim_C9.1 { regex := { re := Re.char 'a', ci := false }, opts := {} }
    [['a', 'b']]
    { line_number := 1, line := ['a', 'b'], «matches» := [(0, 1)] } (by decide)

/-- Claim C10: every engine-produced result satisfies the precondition of
`match_texts`: each stored span lies within the line's byte length and both
offsets fall on character boundaries, so `match_texts` returns exactly one
substring per span and never panics. -/
theorem claim_C10 :
    ∀ (s : Searcher) (lines : List Str) (r : SearchResult),
      r ∈ scanResults s lines →
        (∀ p ∈ r.matches, p.1 ≤ p.2 ∧ p.2 ≤ byteLen r.line ∧
          (charIdxOfByte r.line p.1).isSome ∧ (charIdxOfByte r.line p.2).isSome) ∧
        ∃ ts, r.match_texts = some ts ∧ ts.length = r.matches.length := by
  intro s lines r hr
  rw [scanResults_eq_scanFrom] at hr
  obtain ⟨k, _, _, hms, _⟩ := scanFrom_mem s lines 0 r hr
  constructor
  · intro p hp
    rw [hms] at hp
    have h1 := find_iter_bounds s.regex r.line p hp
    have h2 := find_iter_boundary s.regex r.line p hp
    exact ⟨h1.1, h1.2, h2.1, h2.2⟩
  · exact search_line_match_texts s r.line_number r.line r
      (scanFrom_mem_search_line s lines 0 r hr)

/-- Witness for claim C10 at a concrete input. -/
theorem claim_C10_witness :
    (∀ p ∈ ({ line_number := 1, line := ['a', 'b'], «matches» := [(0, 1)] }
        : SearchResult).matches,
      p.1 ≤ p.2 ∧
        p.2 ≤ byteLen ({ line_number := 1, line := ['a', 'b'], «matches» := [(0, 1)] }
          : SearchResult).line ∧
        (charIdxOfByte ({ line_number := 1, line := ['a', 'b'], «matches» := [(0, 1)] }
          : SearchResult).line p.1).isSome ∧
        (charIdxOfByte ({ line_number := 1, line := ['a', 'b'], «matches» := [(0, 1)] }
          : SearchResult).line p.2).isSome) ∧
      ∃ ts, ({ line_number := 1, line := ['a', 'b'], «matches» := [(0, 1)] }
          : SearchResult).match_texts = some ts ∧
        ts.length = ({ line_number := 1, line := ['a', 'b'], «matches» := [(0, 1)] }
          : SearchResult).matches.length :=
  claim_C10 { regex := { re := Re.char 'a', ci := false }, opts := {} }
    [['a', 'b']]
    { line_number := 1, line := ['a', 'b'], «matches» := [(0, 1)] } (by decide)

end Mrustgrep
